import Mathlib

/-!
Verification model of the data-processing pipeline in
`src/data_process/prepare.py`.

Modelling conventions:
 - Timestamps are natural numbers counting whole seconds since the epoch
   1970-01-01T00:00:00 (pandas `Timestamp` at second granularity; the raw
   logs carry second-resolution clocks).
 - A pandas `DataFrame` indexed by timestamp is a `Table`: a list of rows,
   each row a timestamp plus the list of channel values (rationals).
 - Pandas label slicing `data[a:b]` on a monotonic `DatetimeIndex` keeps the
   rows with `a ≤ ts ≤ b` (both endpoints included): `sliceClosed`.
 - `pd.date_range(b, e, freq=f, closed='left')` is the arithmetic sequence
   `b, b+f, ...` of all points strictly below `e`: `dateRangeLeft`.
 - Exceptions thrown by a per-window write are modelled by an oracle
   `step : ℕ → Except String Unit` saying whether the try-block for the
   window with the given start succeeds; the `print` in the handler becomes
   a `SplitEvent.failed` event recording the message and the start time.
-/

/-- One row of a time-indexed table: the timestamp index plus the
measurement channels of that row. -/
structure Row where
  ts : ℕ
  vals : List ℚ
deriving DecidableEq, Repr

/-- A pandas DataFrame indexed by timestamp (rows kept in storage order). -/
abbrev Table := List Row

/-- `RawData._read_data_file`: parse one raw file and make its first column
the time index.  A parsed raw file is given as the list of its records,
first column (the timestamp) separated from the measurement columns. -/
def readDataFile (file : List (ℕ × List ℚ)) : Table :=
  file.map (fun p => ⟨p.1, p.2⟩)

/-- `RawData._merge_data`: `pd.concat` of the per-file record sets, in the
order of the input file list (`Pool.map_async` returns results in input
order); no sorting and no deduplication. -/
def mergeData (files : List (List (ℕ × List ℚ))) : Table :=
  (files.map readDataFile).flatten

/-- Arithmetic timestamp sequence `a, a+f, ..., a+(n-1)*f`. -/
def arithSeq (a n f : ℕ) : List ℕ :=
  (List.range n).map (fun k => a + k * f)

/-- `pd.date_range(b, e, freq=f, closed='left')` as built in
`Project.__post_init__`: all grid points `b + k*f` strictly below `e`. -/
def dateRangeLeft (b e f : ℕ) : List ℕ :=
  arithSeq b ((e - b + f - 1) / f) f

/-- `pd.date_range(a, b, freq=f)` (both endpoints included) as used for a
fraction's time sub-range in `_make_data_fractions`; meaningful for
`a ≤ b` and `f ≥ 1`. -/
def dateRangeClosed (a b f : ℕ) : List ℕ :=
  arithSeq a ((b - a) / f + 1) f

/-- Pandas label slicing `data[a:b]` on a monotonic DatetimeIndex: the rows
with `a ≤ ts ≤ b`, both endpoints INCLUDED (pandas label slices are closed
on both ends). -/
def sliceClosed (t : Table) (a b : ℕ) : Table :=
  t.filter (fun r => decide (a ≤ r.ts) && decide (r.ts ≤ b))

/-- Fraction size from `_make_data_fractions`:
`fraction_size, extra = divmod(len(data_range), cores * 8)` followed by
`if extra: fraction_size += 1`. -/
def fractionSize (len cores : ℕ) : ℕ :=
  len / (cores * 8) + (if len % (cores * 8) = 0 then 0 else 1)

/-- The `while 1: fraction = tuple(islice(iter, size)); if not fraction:
return` loop of `_make_data_fractions`, with an explicit iteration bound
(the loop consumes at least one element per iteration once `s ≥ 1`, so
`fuel = length` is always enough; `s = 0` only happens for an empty range,
where `islice` immediately yields the empty tuple and the loop returns). -/
def chunkFuel (s : ℕ) : ℕ → List ℕ → List (List ℕ)
  | _, [] => []
  | 0, _ :: _ => []
  | fuel + 1, x :: xs =>
    if s = 0 then [] else ((x :: xs).take s) :: chunkFuel s fuel ((x :: xs).drop s)

/-- Consume a timestamp list in chunks of `s` (the islice loop run to
completion). -/
def chunkList (s : ℕ) (l : List ℕ) : List (List ℕ) :=
  chunkFuel s l.length l

/-- `fraction[0]` of a non-empty fraction tuple. -/
def firstTs (l : List ℕ) : ℕ := l.headD 0

/-- `fraction[-1]` of a non-empty fraction tuple. -/
def lastTs : List ℕ → ℕ
  | [] => 0
  | [x] => x
  | _ :: x :: xs => lastTs (x :: xs)

/-- `SonicData._make_data_fractions`: carve the data range into chunks of
`fractionSize` timestamps; each chunk yields the pair of the table slice
`data[start_time:end_time]` (with `end_time = fraction[-1] + freq`) and the
sub-range `pd.date_range(fraction[0], fraction[-1], freq)`.  The slice is
total here because slicing a monotonic index never raises (the
`try/except` around the `yield` is only reachable on a malformed index). -/
def makeDataFractions (data : Table) (dataRange : List ℕ) (f cores : ℕ) :
    List (Table × List ℕ) :=
  (chunkList (fractionSize dataRange.length cores) dataRange).map
    (fun frac =>
      (sliceClosed data (firstTs frac) (lastTs frac + f),
       dateRangeClosed (firstTs frac) (lastTs frac) f))

/-- Decimal digit character of `n % 10` (python zero-padded rendering). -/
def digitChar (n : ℕ) : Char := Char.ofNat (48 + n % 10)

/-- Two-digit zero-padded field, as python renders month, day, hour, minute
and second components (all below 100). -/
def pad2c (n : ℕ) : List Char := [digitChar (n / 10), digitChar n]

/-- Four-digit zero-padded year, as python renders `date.year`
(`datetime` years are at most 9999). -/
def pad4c (n : ℕ) : List Char :=
  [digitChar (n / 1000), digitChar (n / 100), digitChar (n / 10), digitChar n]

/-- Day-of-era on which year-of-era `y` starts (era = 400 Gregorian years
counted from a March-1st-based year start). -/
def yearStartDoe (y : ℕ) : ℕ := 365 * y + y / 4 - y / 100

/-- Day-of-year on which shifted month `mp` starts (`mp = 0` is March). -/
def monthStartDoy (mp : ℕ) : ℕ := (153 * mp + 2) / 5

/-- Day-of-era corrected for the leap days accumulated before it. -/
def leapCountedDays (a : ℕ) : ℕ := a - a / 1460 + a / 36524 - a / 146096

/-- Year-of-era containing day-of-era `doe`. -/
def eraYearOf (doe : ℕ) : ℕ := leapCountedDays doe / 365

/-- Era (400-year Gregorian cycle) of day count `z` since 1970-01-01. -/
def eraOf (z : ℕ) : ℕ := (z + 719468) / 146097

/-- Day-of-era of day count `z`. -/
def doeOf (z : ℕ) : ℕ := (z + 719468) % 146097

/-- Year-of-era of day count `z`. -/
def yoeOf (z : ℕ) : ℕ := eraYearOf (doeOf z)

/-- Day-of-year (March-based) of day count `z`. -/
def doyOf (z : ℕ) : ℕ := doeOf z - yearStartDoe (yoeOf z)

/-- Shifted month index (0 = March, ..., 11 = February) of day count `z`. -/
def mpOf (z : ℕ) : ℕ := (5 * doyOf z + 2) / 153

/-- Civil month (1..12) of day count `z`. -/
def monthOf (z : ℕ) : ℕ := if mpOf z < 10 then mpOf z + 3 else mpOf z - 9

/-- Civil day of month (1..31) of day count `z`. -/
def dayOf (z : ℕ) : ℕ := doyOf z - monthStartDoy (mpOf z) + 1

/-- Civil year of day count `z` (January and February belong to the next
March-based year). -/
def yearOf (z : ℕ) : ℕ :=
  if monthOf z ≤ 2 then yoeOf z + eraOf z * 400 + 1 else yoeOf z + eraOf z * 400

/-- Civil (proleptic Gregorian) date `(year, month, day)` of a day count
`z` since 1970-01-01, as computed by python's `datetime`/pandas for
`str(start_time.date())`. -/
def civilFromDays (z : ℕ) : ℕ × ℕ × ℕ := (yearOf z, monthOf z, dayOf z)

/-- Characters of `str(start_time.date())`: `YYYY-MM-DD`. -/
def dateChars (ts : ℕ) : List Char :=
  pad4c (civilFromDays (ts / 86400)).1 ++
    '-' :: pad2c (civilFromDays (ts / 86400)).2.1 ++
    '-' :: pad2c (civilFromDays (ts / 86400)).2.2

/-- Characters of `str(start_time.time())` at second granularity:
`HH:MM:SS`. -/
def timeChars (ts : ℕ) : List Char :=
  pad2c (ts % 86400 / 3600) ++ ':' :: pad2c (ts % 3600 / 60) ++ ':' :: pad2c (ts % 60)

/-- The single-character substitution performed by `.replace(':', '-')` on
the time string (its pattern is one character, so it is a character map). -/
def colonToDash (c : Char) : Char := if c = ':' then '-' else c

/-- `part_name` of `_split_data_fraction`:
`str(start_time.date()) + '_' + str(start_time.time()).replace(':', '-')[:-3]`
(the python `[:-3]` keeps all but the last three characters). -/
def partName (ts : ℕ) : String :=
  String.mk (dateChars ts ++ '_' ::
    (((timeChars ts).map colonToDash).take (((timeChars ts).map colonToDash).length - 3)))

/-- The window loop of `_split_data_fraction` with every per-window write
succeeding: window `i` starts at `data_range_fraction[i]`, ends one
frequency step later, and the emitted file pairs the name
`part_name + '.csv'` with the label slice
`data_fraction[start_time:end_time]`. -/
def splitWindows (dataFraction : Table) (rangeFraction : List ℕ) (f : ℕ) :
    List (String × Table) :=
  rangeFraction.map (fun s => (partName s ++ ".csv", sliceClosed dataFraction s (s + f)))

/-- One observable event of the window loop: either a file write (name and
content) or the handler's log line `print("%s : %s" % (str(e), start_time))`
recording the message and the offending window's start time. -/
inductive SplitEvent where
  | wrote (name : String) (content : Table)
  | failed (msg : String) (startTime : ℕ)
deriving DecidableEq

/-- The `while i < len(data_range_fraction)` loop of
`_split_data_fraction`, with the fallible try-block (slice + `to_csv`)
modelled by the oracle `step`: on success the window's file is written, on
an exception the handler logs the message with the window's start time and
the loop moves on to the next window. -/
def splitLoop (step : ℕ → Except String Unit) (df : Table) (f : ℕ) :
    List ℕ → List SplitEvent
  | [] => []
  | s :: rest =>
    (match step s with
      | Except.ok _ => SplitEvent.wrote (partName s ++ ".csv") (sliceClosed df s (s + f))
      | Except.error e => SplitEvent.failed e s) :: splitLoop step df f rest

/-- `SonicData._split_data_fraction`: run the window loop over the whole
range fraction and `return True` (the completion signal). -/
def splitDataFraction (step : ℕ → Except String Unit) (df : Table)
    (rf : List ℕ) (f : ℕ) : List SplitEvent × Bool :=
  (splitLoop step df f rf, true)

/-- `SonicData.prepare_data` seen through the files it produces: every
fraction from `_make_data_fractions` is dispatched to
`_split_data_fraction`, and the file writes are collected in dispatch
order (file contents do not depend on worker scheduling because no two
workers share a window). -/
def prepareOutputs (data : Table) (dataRange : List ℕ) (f cores : ℕ) :
    List (String × Table) :=
  ((makeDataFractions data dataRange f cores).map
    (fun p => splitWindows p.1 p.2 f)).flatten

/-- `DataFrame.tshift(8, freq='H')`: shift every index timestamp forward by
a fixed amount (here 8 hours = 28800 s). -/
def tshiftTable (t : Table) (shift : ℕ) : Table :=
  t.map (fun r => ⟨r.ts + shift, r.vals⟩)

/-- Minimum timestamp of a table (pandas `index.min()`), 0 for an empty
table. -/
def minTs : Table → ℕ
  | [] => 0
  | r :: rs => List.foldl min r.ts (rs.map Row.ts)

/-- Midnight of the day containing `ts` (pandas resample anchors its bins
at the start of the first day of data). -/
def dayFloor (ts : ℕ) : ℕ := ts / 86400 * 86400

/-- Origin of the resampling grid for a table. -/
def resampleOrigin (t : Table) : ℕ := dayFloor (minTs t)

/-- Rows of `t` landing in resample bin number `k`: the half-open bin
`[origin + k*f, origin + (k+1)*f)` (pandas tick-frequency bins are closed
on the left, labelled by their left edge). -/
def bucketRows (t : Table) (f k : ℕ) : Table :=
  t.filter (fun r =>
    decide (resampleOrigin t + k * f ≤ r.ts) && decide (r.ts < resampleOrigin t + (k + 1) * f))

/-- Value of channel `c` in a row (0 outside the row's channel count, never
hit for tables with a fixed column set). -/
def channelVal (c : ℕ) (r : Row) : ℚ := r.vals.getD c 0

/-- `resample(freq).mean()` at bin `k`, channel `c`: the arithmetic mean of
the channel over the bin's rows, or nothing when the bin holds no source
row (pandas emits NaN there). -/
def resampleMeanChannel (t : Table) (f k c : ℕ) : Option ℚ :=
  if (bucketRows t f k).isEmpty then none
  else some (((bucketRows t f k).map (channelVal c)).sum / ((bucketRows t f k).length : ℚ))

/-- `AmmoniaData.prepare_data` at bin `k`, channel `c`:
`self.data.tshift(8, freq='H')` followed by
`resample(self.data_range.freq).mean()`. -/
def ammoniaPrepareChannel (t : Table) (f k c : ℕ) : Option ℚ :=
  resampleMeanChannel (tshiftTable t 28800) f k c

/-- Spec-side description of the ammonia resampler (for the refinement
statement): select the source rows whose timestamp, once shifted forward by
8 hours, lands in resample bin `k`, and output their per-channel arithmetic
mean, or nothing when no source row lands there. -/
def specAmmoniaMean (t : Table) (f k c : ℕ) : Option ℚ :=
  let origin := dayFloor (minTs t + 28800)
  let rows := t.filter (fun r =>
    decide (origin + k * f ≤ r.ts + 28800) && decide (r.ts + 28800 < origin + (k + 1) * f))
  if rows.isEmpty then none
  else some ((rows.map (channelVal c)).sum / (rows.length : ℚ))

/-- Inverse civil-date conversion (day count since 1970-01-01 of a civil
date); proof apparatus for the injectivity of the file-name rendering, not
part of the modelled program. -/
def daysFromCivil (y m d : ℕ) : ℕ :=
  let y2 := if m ≤ 2 then y - 1 else y
  let mp := if 3 ≤ m then m - 3 else m + 9
  y2 / 400 * 146097 +
    (365 * (y2 % 400) + y2 % 400 / 4 - y2 % 400 / 100 + (monthStartDoy mp + d - 1)) - 719468

/-- Last day-of-era belonging to year-of-era `y` (year 399 keeps the era's
trailing leap day). -/
def eHiDoe (y : ℕ) : ℕ := if y = 399 then 146096 else yearStartDoe (y + 1) - 1

/-- Per-year computational facts: `eraYearOf` answers `y` on both ends of
year `y`'s day-of-era interval, and the interval is at most 366 days. -/
def yearRowOk (y : ℕ) : Bool :=
  (eraYearOf (yearStartDoe y) == y) && (eraYearOf (eHiDoe y) == y) &&
    decide (eHiDoe y - yearStartDoe y ≤ 365)

/-- Per-day-of-year computational facts: the shifted-month split of `doy`
reconstructs `doy`, and month and day land in their civil ranges. -/
def monthRowOk (doy : ℕ) : Bool :=
  let mp := (5 * doy + 2) / 153
  let m := if mp < 10 then mp + 3 else mp - 9
  let d := doy - monthStartDoy mp + 1
  (monthStartDoy (if 3 ≤ m then m - 3 else m + 9) + d - 1 == doy) &&
    decide (1 ≤ m) && decide (m ≤ 12) && decide (1 ≤ d) && decide (d ≤ 31)

example : civilFromDays 0 = (1970, 1, 1) := by decide
example : civilFromDays 18262 = (2020, 1, 1) := by decide
example : partName 1577836800 = "2020-01-01_00-00" := by decide
example : dateRangeLeft 0 7200 1800 = [0, 1800, 3600, 5400] := by decide
example : chunkList 3 [0, 1, 2, 3, 4, 5, 6, 7] = [[0, 1, 2], [3, 4, 5], [6, 7]] := by decide
example : fractionSize 4 1 = 1 := by decide
example : civilFromDays 11016 = (2000, 2, 29) := by decide
example : civilFromDays 11017 = (2000, 3, 1) := by decide
example : civilFromDays 47540 = (2100, 2, 28) := by decide
example : civilFromDays 47541 = (2100, 3, 1) := by decide
example : civilFromDays 19782 = (2024, 2, 29) := by decide

set_option maxHeartbeats 1000000 in
set_option maxRecDepth 4000 in
lemma yearRows : ∀ y, y < 400 → yearRowOk y = true := by decide

set_option maxHeartbeats 1000000 in
set_option maxRecDepth 4000 in
lemma monthRows : ∀ x, x < 366 → monthRowOk x = true := by decide

lemma leapCountedDays_le_succ (a : ℕ) : leapCountedDays a ≤ leapCountedDays (a + 1) := by
  have h4 : (36524 : ℕ) ∣ 146096 := by norm_num
  have e1 : (a + 1) / 1460 = a / 1460 ∨ (a + 1) / 1460 = a / 1460 + 1 := by
    rw [Nat.succ_div]
    split_ifs <;> omega
  have e2 : (a + 1) / 36524 = a / 36524 ∨ (a + 1) / 36524 = a / 36524 + 1 := by
    rw [Nat.succ_div]
    split_ifs <;> omega
  have e3 : (a + 1) / 146096 = a / 146096 ∨
      ((a + 1) / 146096 = a / 146096 + 1 ∧ (a + 1) / 36524 = a / 36524 + 1) := by
    by_cases h3 : (146096 : ℕ) ∣ (a + 1)
    · right
      rw [Nat.succ_div a 146096, if_pos h3, Nat.succ_div a 36524, if_pos (dvd_trans h4 h3)]
      omega
    · left
      rw [Nat.succ_div a 146096, if_neg h3]
      omega
  unfold leapCountedDays
  omega

lemma leapCountedDays_mono : Monotone leapCountedDays :=
  monotone_nat_of_le_succ leapCountedDays_le_succ

lemma eraYearOf_mono {a b : ℕ} (h : a ≤ b) : eraYearOf a ≤ eraYearOf b :=
  Nat.div_le_div_right (leapCountedDays_mono h)

lemma coverYear (doe : ℕ) (h : doe < 146097) :
    ∃ y, y < 400 ∧ yearStartDoe y ≤ doe ∧ doe ≤ eHiDoe y := by
  classical
  set P : ℕ → Prop := fun y => yearStartDoe y ≤ doe with hP
  have hP0 : P 0 := by simp [hP, yearStartDoe]
  set y := Nat.findGreatest P 399 with hy
  have hyle : y ≤ 399 := Nat.findGreatest_le 399
  have hPy : P y := Nat.findGreatest_spec (Nat.zero_le 399) hP0
  by_cases h399 : y = 399
  · refine ⟨y, by omega, hPy, ?_⟩
    simp only [eHiDoe, if_pos h399]
    omega
  · have hmax : ¬ P (y + 1) :=
      @Nat.findGreatest_is_greatest (y + 1) P _ 399 (by omega) (by omega)
    refine ⟨y, by omega, hPy, ?_⟩
    simp only [eHiDoe, if_neg h399]
    have hlt : ¬ yearStartDoe (y + 1) ≤ doe := hmax
    omega

lemma yearRow_facts {y : ℕ} (h : y < 400) :
    eraYearOf (yearStartDoe y) = y ∧ eraYearOf (eHiDoe y) = y ∧
      eHiDoe y - yearStartDoe y ≤ 365 := by
  have hr := yearRows y h
  simp only [yearRowOk, Bool.and_eq_true, beq_iff_eq, decide_eq_true_eq] at hr
  exact ⟨hr.1.1, hr.1.2, hr.2⟩

lemma yoeFacts {doe : ℕ} (h : doe < 146097) :
    yearStartDoe (eraYearOf doe) ≤ doe ∧ doe - yearStartDoe (eraYearOf doe) ≤ 365 ∧
      eraYearOf doe ≤ 399 := by
  obtain ⟨y, hy, hlo, hhi⟩ := coverYear doe h
  obtain ⟨hl, hh, hw⟩ := yearRow_facts hy
  have h1 : y ≤ eraYearOf doe := hl ▸ eraYearOf_mono hlo
  have h2 : eraYearOf doe ≤ y := hh ▸ eraYearOf_mono hhi
  have heq : eraYearOf doe = y := le_antisymm h2 h1
  rw [heq]
  exact ⟨hlo, by omega, by omega⟩

lemma doeOf_lt (z : ℕ) : doeOf z < 146097 := Nat.mod_lt _ (by norm_num)

lemma doyOf_le (z : ℕ) : doyOf z ≤ 365 := (yoeFacts (doeOf_lt z)).2.1

lemma civil_month_day (z : ℕ) :
    monthStartDoy (if 3 ≤ monthOf z then monthOf z - 3 else monthOf z + 9) + dayOf z - 1 =
        doyOf z ∧
      1 ≤ monthOf z ∧ monthOf z ≤ 12 ∧ 1 ≤ dayOf z ∧ dayOf z ≤ 31 := by
  have h := monthRows (doyOf z) (by have := doyOf_le z; omega)
  simp only [monthRowOk, Bool.and_eq_true, beq_iff_eq, decide_eq_true_eq] at h
  exact ⟨h.1.1.1.1, h.1.1.1.2, h.1.1.2, h.1.2, h.2⟩

/-- The civil-date conversion round-trips: proof that the rendered date
determines the day count. -/
theorem daysFromCivil_civilFromDays (z : ℕ) :
    daysFromCivil (yearOf z) (monthOf z) (dayOf z) = z := by
  obtain ⟨hrt, hm1, hm2, hd1, hd2⟩ := civil_month_day z
  have hys : yearStartDoe (yoeOf z) ≤ doeOf z := (yoeFacts (doeOf_lt z)).1
  have hyoe : yoeOf z ≤ 399 := (yoeFacts (doeOf_lt z)).2.2
  simp only [daysFromCivil]
  have hy2 : (if monthOf z ≤ 2 then yearOf z - 1 else yearOf z) = yoeOf z + eraOf z * 400 := by
    unfold yearOf
    by_cases hc : monthOf z ≤ 2 <;> simp [hc]
  rw [hy2]
  have e400 : (yoeOf z + eraOf z * 400) / 400 = eraOf z := by omega
  have m400 : (yoeOf z + eraOf z * 400) % 400 = yoeOf z := by omega
  rw [e400, m400]
  have hysEq : 365 * yoeOf z + yoeOf z / 4 - yoeOf z / 100 = yearStartDoe (yoeOf z) := rfl
  rw [hysEq, hrt]
  have hdoyDef : doyOf z = doeOf z - yearStartDoe (yoeOf z) := rfl
  have hs : yearStartDoe (yoeOf z) + doyOf z = doeOf z := by omega
  rw [hs]
  have hz : eraOf z * 146097 + doeOf z = z + 719468 := by
    have h1 : eraOf z = (z + 719468) / 146097 := rfl
    have h2 : doeOf z = (z + 719468) % 146097 := rfl
    omega
  omega

lemma yearOf_le_of_le {z : ℕ} (h : z ≤ 106751) : yearOf z ≤ 9999 := by
  have h5 : (826219 : ℕ) / 146097 = 5 := by norm_num
  have hera : eraOf z ≤ 5 := by
    have hd : (z + 719468) / 146097 ≤ 826219 / 146097 := Nat.div_le_div_right (by omega)
    have he : eraOf z = (z + 719468) / 146097 := rfl
    omega
  have hyoe : yoeOf z ≤ 399 := (yoeFacts (doeOf_lt z)).2.2
  unfold yearOf
  split_ifs <;> omega

lemma digitChar_inj {a b : ℕ} (h : digitChar a = digitChar b) : a % 10 = b % 10 := by
  have key : ∀ x, x < 10 → ∀ y, y < 10 → Char.ofNat (48 + x) = Char.ofNat (48 + y) → x = y := by
    decide
  exact key _ (Nat.mod_lt _ (by norm_num)) _ (Nat.mod_lt _ (by norm_num)) h

lemma digitChar_ne_colon (a : ℕ) : digitChar a ≠ ':' := by
  have key : ∀ x, x < 10 → Char.ofNat (48 + x) ≠ ':' := by decide
  exact key _ (Nat.mod_lt _ (by norm_num))

lemma colonToDash_digit (a : ℕ) : colonToDash (digitChar a) = digitChar a := by
  unfold colonToDash
  rw [if_neg (digitChar_ne_colon a)]

lemma partName_chars (ts : ℕ) :
    partName ts = String.mk
      [digitChar (yearOf (ts / 86400) / 1000), digitChar (yearOf (ts / 86400) / 100),
       digitChar (yearOf (ts / 86400) / 10), digitChar (yearOf (ts / 86400)), '-',
       digitChar (monthOf (ts / 86400) / 10), digitChar (monthOf (ts / 86400)), '-',
       digitChar (dayOf (ts / 86400) / 10), digitChar (dayOf (ts / 86400)), '_',
       digitChar (ts % 86400 / 3600 / 10), digitChar (ts % 86400 / 3600), '-',
       digitChar (ts % 3600 / 60 / 10), digitChar (ts % 3600 / 60)] := by
  unfold partName dateChars timeChars civilFromDays
  simp [pad2c, pad4c, colonToDash_digit, colonToDash, digitChar_ne_colon, List.take_succ_cons]

lemma partName_inj {ts1 ts2 : ℕ} (hb1 : ts1 ≤ 9223372036) (hb2 : ts2 ≤ 9223372036)
    (hm1 : ts1 % 60 = 0) (hm2 : ts2 % 60 = 0) (h : partName ts1 = partName ts2) :
    ts1 = ts2 := by
  rw [partName_chars, partName_chars] at h
  have hl := congrArg String.data h
  simp only [List.cons.injEq, and_true, true_and] at hl
  obtain ⟨e1, e2, e3, e4, e5, e6, e7, e8, e9, e10, e11, e12⟩ := hl
  have hy : yearOf (ts1 / 86400) = yearOf (ts2 / 86400) := by
    have b1 : yearOf (ts1 / 86400) ≤ 9999 := yearOf_le_of_le (by omega)
    have b2 : yearOf (ts2 / 86400) ≤ 9999 := yearOf_le_of_le (by omega)
    have d1 := digitChar_inj e1
    have d2 := digitChar_inj e2
    have d3 := digitChar_inj e3
    have d4 := digitChar_inj e4
    omega
  have hmo : monthOf (ts1 / 86400) = monthOf (ts2 / 86400) := by
    have b1 := (civil_month_day (ts1 / 86400)).2.2.1
    have b2 := (civil_month_day (ts2 / 86400)).2.2.1
    have d1 := digitChar_inj e5
    have d2 := digitChar_inj e6
    omega
  have hda : dayOf (ts1 / 86400) = dayOf (ts2 / 86400) := by
    have b1 := (civil_month_day (ts1 / 86400)).2.2.2.2
    have b2 := (civil_month_day (ts2 / 86400)).2.2.2.2
    have d1 := digitChar_inj e7
    have d2 := digitChar_inj e8
    omega
  have hdays : ts1 / 86400 = ts2 / 86400 := by
    have r1 := daysFromCivil_civilFromDays (ts1 / 86400)
    have r2 := daysFromCivil_civilFromDays (ts2 / 86400)
    rw [hy, hmo, hda] at r1
    omega
  have hhour : ts1 % 86400 / 3600 = ts2 % 86400 / 3600 := by
    have d1 := digitChar_inj e9
    have d2 := digitChar_inj e10
    omega
  have hmin : ts1 % 3600 / 60 = ts2 % 3600 / 60 := by
    have d1 := digitChar_inj e11
    have d2 := digitChar_inj e12
    omega
  omega

lemma chunkFuel_nil (s fuel : ℕ) : chunkFuel s fuel [] = [] := by
  cases fuel <;> rfl

lemma chunkFuel_zero (s : ℕ) (l : List ℕ) : chunkFuel s 0 l = [] := by
  cases l <;> rfl

lemma chunkFuel_cons (s fuel : ℕ) (x : ℕ) (xs : List ℕ) (hs : 1 ≤ s) :
    chunkFuel s (fuel + 1) (x :: xs) =
      ((x :: xs).take s) :: chunkFuel s fuel ((x :: xs).drop s) := by
  rw [chunkFuel]
  rw [if_neg (by omega)]

lemma chunkFuel_flatten (s : ℕ) (hs : 1 ≤ s) :
    ∀ fuel l, l.length ≤ fuel → (chunkFuel s fuel l).flatten = l := by
  intro fuel
  induction fuel with
  | zero =>
    intro l hl
    have hn : l = [] := by cases l <;> simp_all
    simp [hn, chunkFuel_nil]
  | succ n ih =>
    intro l hl
    cases l with
    | nil => simp [chunkFuel_nil]
    | cons x xs =>
      rw [chunkFuel_cons s n x xs hs, List.flatten_cons,
        ih ((x :: xs).drop s) (by simp only [List.length_drop, List.length_cons]; simp at hl; omega)]
      exact List.take_append_drop s (x :: xs)

lemma chunkFuel_ne_nil (s : ℕ) (hs : 1 ≤ s) :
    ∀ fuel l c, c ∈ chunkFuel s fuel l → c ≠ [] := by
  intro fuel
  induction fuel with
  | zero =>
    intro l c hc
    simp [chunkFuel_zero] at hc
  | succ n ih =>
    intro l c hc
    cases l with
    | nil => simp [chunkFuel_nil] at hc
    | cons x xs =>
      rw [chunkFuel_cons s n x xs hs] at hc
      rcases List.mem_cons.mp hc with h | h
      · subst h
        cases s with
        | zero => omega
        | succ s2 => simp
      · exact ih _ c h

lemma chunkFuel_length_le (s : ℕ) :
    ∀ fuel l, (chunkFuel s fuel l).length ≤ l.length := by
  intro fuel
  induction fuel with
  | zero =>
    intro l
    simp [chunkFuel_zero]
  | succ n ih =>
    intro l
    cases l with
    | nil => simp [chunkFuel_nil]
    | cons x xs =>
      by_cases hs : s = 0
      · subst hs
        rw [chunkFuel]
        simp
      · rw [chunkFuel_cons s n x xs (by omega)]
        have := ih ((x :: xs).drop s)
        simp only [List.length_cons, List.length_drop] at *
        omega

lemma chunkFuel_dropLast_length (s : ℕ) (hs : 1 ≤ s) :
    ∀ fuel l, l.length ≤ fuel → ∀ c ∈ (chunkFuel s fuel l).dropLast, c.length = s := by
  intro fuel
  induction fuel with
  | zero =>
    intro l hl c hc
    have hn : l = [] := by cases l <;> simp_all
    simp [hn, chunkFuel_nil] at hc
  | succ n ih =>
    intro l hl c hc
    cases l with
    | nil => simp [chunkFuel_nil] at hc
    | cons x xs =>
      rw [chunkFuel_cons s n x xs hs] at hc
      rcases hrest : chunkFuel s n ((x :: xs).drop s) with _ | ⟨r, rs⟩
      · rw [hrest] at hc
        simp at hc
      · rw [hrest, List.dropLast_cons_of_ne_nil (by simp)] at hc
        rcases List.mem_cons.mp hc with h | h
        · subst h
          have hd : (x :: xs).drop s ≠ [] := by
            intro hdrop
            rw [hdrop, chunkFuel_nil] at hrest
            cases hrest
          have : s < (x :: xs).length := by
            by_contra hle
            exact hd (List.drop_eq_nil_of_le (by omega))
          simp only [List.length_take, List.length_cons] at this ⊢
          omega
        · rw [← hrest] at h
          exact ih ((x :: xs).drop s) (by simp at hl ⊢; omega) c h

lemma flatten_sorted_pairwise :
    ∀ cs : List (List ℕ), cs.flatten.Sorted (· < ·) →
      cs.Pairwise (fun a b => ∀ x ∈ a, ∀ y ∈ b, x < y) := by
  intro cs
  induction cs with
  | nil => intro _; exact List.Pairwise.nil
  | cons c cs ih =>
    intro h
    rw [List.flatten_cons] at h
    rw [List.Sorted, List.pairwise_append] at h
    refine List.Pairwise.cons ?_ (ih h.2.1)
    intro b hb x hx y hy
    exact h.2.2 x hx y (List.mem_flatten.mpr ⟨b, hb, hy⟩)

lemma arithSeq_succ_head (a n f : ℕ) :
    arithSeq a (n + 1) f = a :: arithSeq (a + f) n f := by
  unfold arithSeq
  rw [List.range_succ_eq_map]
  simp only [List.map_cons, Nat.zero_mul, Nat.add_zero, List.map_map]
  congr 1
  apply List.map_congr_left
  intro k _
  simp only [Function.comp_apply]
  rw [Nat.succ_mul]
  ring

lemma arithSeq_length (a n f : ℕ) : (arithSeq a n f).length = n := by
  simp [arithSeq]

lemma arithSeq_take (a n f s : ℕ) :
    (arithSeq a n f).take s = arithSeq a (min s n) f := by
  unfold arithSeq
  rw [← List.map_take, List.take_range]

lemma arithSeq_drop (a n f s : ℕ) :
    (arithSeq a n f).drop s = arithSeq (a + s * f) (n - s) f := by
  unfold arithSeq
  rw [← List.map_drop]
  by_cases h : s ≤ n
  · have hn : n = s + (n - s) := by omega
    rw [hn, List.range_add]
    have hlen : (List.range s).length = s := List.length_range s
    rw [List.drop_append_of_le_length (by omega), List.drop_eq_nil_of_le (by omega),
      List.nil_append, List.map_map]
    have h2 : s + (n - s) - s = n - s := by omega
    rw [h2]
    apply List.map_congr_left
    intro k _
    simp only [Function.comp_apply]
    ring
  · rw [List.drop_eq_nil_of_le (by simp only [List.length_range]; omega)]
    have : n - s = 0 := by omega
    rw [this]
    rfl

lemma firstTs_arith (a n f : ℕ) (h : 1 ≤ n) : firstTs (arithSeq a n f) = a := by
  cases n with
  | zero => omega
  | succ n2 =>
    rw [arithSeq_succ_head]
    rfl

lemma lastTs_arith (f : ℕ) : ∀ n a, 1 ≤ n → lastTs (arithSeq a n f) = a + (n - 1) * f := by
  intro n
  induction n with
  | zero => intro a h; omega
  | succ n2 ih =>
    intro a _
    cases n2 with
    | zero =>
      rw [arithSeq_succ_head]
      simp [arithSeq, lastTs]
    | succ n3 =>
      rw [arithSeq_succ_head, arithSeq_succ_head, lastTs, ← arithSeq_succ_head,
        ih (a + f) (by omega)]
      simp only [Nat.succ_sub_one]
      ring

lemma arithSeq_sorted (a n f : ℕ) (hf : 1 ≤ f) : (arithSeq a n f).Sorted (· < ·) := by
  unfold arithSeq
  rw [List.Sorted, List.pairwise_map]
  have h := List.pairwise_lt_range n
  apply List.Pairwise.imp ?_ h
  intro i j hij
  have hmul : i * f < j * f := by
    have hle := Nat.mul_le_mul_right f (show i + 1 ≤ j by omega)
    have hsucc : (i + 1) * f = i * f + f := by ring
    omega
  omega

lemma arithSeq_mem_bounds {x a n f : ℕ} (h : x ∈ arithSeq a n f) :
    a ≤ x ∧ x ≤ a + (n - 1) * f := by
  unfold arithSeq at h
  simp only [List.mem_map, List.mem_range] at h
  obtain ⟨k, hk, rfl⟩ := h
  constructor
  · omega
  · have : k * f ≤ (n - 1) * f := Nat.mul_le_mul_right f (by omega)
    omega

lemma dateRangeClosed_arith (a m f : ℕ) (hf : 1 ≤ f) (hm : 1 ≤ m) :
    dateRangeClosed a (a + (m - 1) * f) f = arithSeq a m f := by
  unfold dateRangeClosed
  congr 1
  have h1 : a + (m - 1) * f - a = (m - 1) * f := by omega
  rw [h1, Nat.mul_div_cancel _ (by omega)]
  omega

lemma chunkFuel_arith (s f : ℕ) (hs : 1 ≤ s) :
    ∀ fuel n a, n ≤ fuel → ∀ c ∈ chunkFuel s fuel (arithSeq a n f),
      ∃ a2 m, 1 ≤ m ∧ m ≤ n ∧ c = arithSeq a2 m f := by
  intro fuel
  induction fuel with
  | zero =>
    intro n a hn c hc
    have h0 : n = 0 := by omega
    subst h0
    simp [arithSeq, chunkFuel_nil] at hc
  | succ fu ih =>
    intro n a hn c hc
    cases n with
    | zero => simp [arithSeq, chunkFuel_nil] at hc
    | succ n2 =>
      rw [arithSeq_succ_head] at hc
      rw [chunkFuel_cons s fu a (arithSeq (a + f) n2 f) hs] at hc
      rw [← arithSeq_succ_head, arithSeq_take, arithSeq_drop] at hc
      rcases List.mem_cons.mp hc with h | h
      · exact ⟨a, min s (n2 + 1), by omega, by omega, h⟩
      · obtain ⟨a2, m, hm1, hm2, hc2⟩ := ih (n2 + 1 - s) (a + s * f) (by omega) c h
        exact ⟨a2, m, hm1, by omega, hc2⟩

lemma chunk_range_eq {c : List ℕ} {f : ℕ} (hf : 1 ≤ f)
    (h : ∃ a2 m, 1 ≤ m ∧ c = arithSeq a2 m f) :
    dateRangeClosed (firstTs c) (lastTs c) f = c := by
  obtain ⟨a2, m, hm, rfl⟩ := h
  rw [firstTs_arith a2 m f hm, lastTs_arith f m a2 hm, dateRangeClosed_arith a2 m f hf hm]

lemma dateRangeLeft_arith (b e f : ℕ) :
    dateRangeLeft b e f = arithSeq b ((e - b + f - 1) / f) f := rfl

lemma fractionSize_pos {L W : ℕ} (hW : 1 ≤ W) (hL : 1 ≤ L) : 1 ≤ fractionSize L W := by
  unfold fractionSize
  have hm : 1 ≤ W * 8 := by omega
  by_cases h : L % (W * 8) = 0
  · rw [if_pos h]
    have hdvd : W * 8 ∣ L := Nat.dvd_of_mod_eq_zero h
    have hle : W * 8 ≤ L := Nat.le_of_dvd (by omega) hdvd
    have h3 : W * 8 / (W * 8) ≤ L / (W * 8) := Nat.div_le_div_right hle
    rw [Nat.div_self (by omega)] at h3
    omega
  · rw [if_neg h]
    exact Nat.le_add_left 1 _

lemma ceilDiv_eq (L m : ℕ) (hm : 1 ≤ m) :
    L / m + (if L % m = 0 then 0 else 1) = (L + m - 1) / m := by
  have hdm := Nat.div_add_mod L m
  have hC : m * (L / m + 1) = m * (L / m) + m := by ring
  have hr : L % m < m := Nat.mod_lt _ (by omega)
  by_cases h : L % m = 0
  · rw [if_pos h]
    have h2 : L + m - 1 = m * (L / m) + (m - 1) := by omega
    rw [h2, Nat.mul_add_div (show 0 < m by omega)]
    have h3 : (m - 1) / m = 0 := Nat.div_eq_of_lt (by omega)
    omega
  · rw [if_neg h]
    have h2 : L + m - 1 = m * (L / m + 1) + (L % m - 1) := by omega
    rw [h2, Nat.mul_add_div (show 0 < m by omega)]
    have h3 : (L % m - 1) / m = 0 := Nat.div_eq_of_lt (by omega)
    omega

lemma fractionSize_eq_ceil (L W : ℕ) (hW : 1 ≤ W) :
    fractionSize L W = (L + W * 8 - 1) / (W * 8) := by
  unfold fractionSize
  exact ceilDiv_eq L (W * 8) (by omega)

lemma chunkFuel_size_zero : ∀ fuel l, chunkFuel 0 fuel l = [] := by
  intro fuel l
  cases fuel <;> cases l <;> rfl

lemma chunkList_mem_arith {b e f W : ℕ} {c : List ℕ} (hf : 1 ≤ f)
    (hc : c ∈ chunkList (fractionSize (dateRangeLeft b e f).length W) (dateRangeLeft b e f)) :
    ∃ a2 m, 1 ≤ m ∧ c = arithSeq a2 m f := by
  by_cases hs : fractionSize (dateRangeLeft b e f).length W = 0
  · rw [hs] at hc
    unfold chunkList at hc
    rw [chunkFuel_size_zero] at hc
    cases hc
  · unfold chunkList at hc
    rw [dateRangeLeft_arith, arithSeq_length] at hc
    have hlen : (dateRangeLeft b e f).length = (e - b + f - 1) / f := by
      rw [dateRangeLeft_arith, arithSeq_length]
    rw [hlen] at hs
    obtain ⟨a2, m, hm1, _, hc2⟩ :=
      chunkFuel_arith (fractionSize ((e - b + f - 1) / f) W) f (by omega)
        ((e - b + f - 1) / f) ((e - b + f - 1) / f) b (le_refl _) c hc
    exact ⟨a2, m, hm1, hc2⟩

lemma makeDataFractions_eq (data : Table) (b e f W : ℕ) (hf : 1 ≤ f) :
    makeDataFractions data (dateRangeLeft b e f) f W =
      (chunkList (fractionSize (dateRangeLeft b e f).length W) (dateRangeLeft b e f)).map
        (fun c => (sliceClosed data (firstTs c) (lastTs c + f), c)) := by
  unfold makeDataFractions
  apply List.map_congr_left
  intro c hc
  have harith := chunkList_mem_arith hf hc
  rw [chunk_range_eq hf harith]

lemma sliceClosed_sliceClosed {data : Table} {A B s t : ℕ} (h1 : A ≤ s) (h2 : t ≤ B) :
    sliceClosed (sliceClosed data A B) s t = sliceClosed data s t := by
  unfold sliceClosed
  rw [List.filter_filter]
  apply List.filter_congr
  intro r _
  by_cases hs1 : s ≤ r.ts <;> by_cases hs2 : r.ts ≤ t <;>
    simp [hs1, hs2] <;> omega

lemma splitWindows_chunk (data : Table) {c : List ℕ} {f : ℕ} (hf : 1 ≤ f)
    (h : ∃ a2 m, 1 ≤ m ∧ c = arithSeq a2 m f) :
    splitWindows (sliceClosed data (firstTs c) (lastTs c + f)) c f =
      c.map (fun s => (partName s ++ ".csv", sliceClosed data s (s + f))) := by
  obtain ⟨a2, m, hm, rfl⟩ := h
  unfold splitWindows
  apply List.map_congr_left
  intro s hs
  obtain ⟨hlo, hhi⟩ := arithSeq_mem_bounds hs
  rw [firstTs_arith a2 m f hm, lastTs_arith f m a2 hm]
  rw [sliceClosed_sliceClosed hlo (by omega)]

lemma fractionSize_eq_zero {L W : ℕ} (h : fractionSize L W = 0) : L = 0 := by
  unfold fractionSize at h
  by_cases hm : W * 8 = 0
  · rw [hm, Nat.mod_zero, Nat.div_zero] at h
    by_cases hL : L = 0
    · exact hL
    · rw [if_neg hL] at h
      omega
  · by_cases h0 : L % (W * 8) = 0
    · rw [if_pos h0] at h
      have hdvd : W * 8 ∣ L := Nat.dvd_of_mod_eq_zero h0
      have hlt : L < W * 8 := (Nat.div_eq_zero_iff (by omega)).mp (by omega)
      by_cases hL : L = 0
      · exact hL
      · have := Nat.le_of_dvd (by omega) hdvd
        omega
    · rw [if_neg h0] at h
      exact absurd h (Nat.succ_ne_zero _)

lemma chunkList_flatten (l : List ℕ) (W : ℕ) :
    (chunkList (fractionSize l.length W) l).flatten = l := by
  by_cases hs : fractionSize l.length W = 0
  · have h0 : l.length = 0 := fractionSize_eq_zero hs
    have hnil : l = [] := List.length_eq_zero.mp h0
    subst hnil
    simp [chunkList, chunkFuel_nil]
  · exact chunkFuel_flatten _ (by omega) l.length l (le_refl _)

lemma fractions_windows_eq (data : Table) (b e f W : ℕ) (hf : 1 ≤ f) :
    (makeDataFractions data (dateRangeLeft b e f) f W).map (fun p => splitWindows p.1 p.2 f) =
      (chunkList (fractionSize (dateRangeLeft b e f).length W) (dateRangeLeft b e f)).map
        (List.map (fun s => (partName s ++ ".csv", sliceClosed data s (s + f)))) := by
  unfold makeDataFractions
  rw [List.map_map]
  apply List.map_congr_left
  intro c hc
  show splitWindows (sliceClosed data (firstTs c) (lastTs c + f))
      (dateRangeClosed (firstTs c) (lastTs c) f) f = _
  rw [chunk_range_eq hf (chunkList_mem_arith hf hc)]
  exact splitWindows_chunk data hf (chunkList_mem_arith hf hc)

lemma prepareOutputs_eq (data : Table) (b e f W : ℕ) (hf : 1 ≤ f) :
    prepareOutputs data (dateRangeLeft b e f) f W =
      (dateRangeLeft b e f).map
        (fun s => (partName s ++ ".csv",
          data.filter (fun r => decide (s ≤ r.ts) && decide (r.ts ≤ s + f)))) := by
  unfold prepareOutputs
  rw [fractions_windows_eq data b e f W hf, ← List.map_flatten, chunkList_flatten]
  rfl

lemma length_filter_flatten (p : Row → Bool) :
    ∀ L : List Table, (L.flatten.filter p).length = (L.map (fun l => (l.filter p).length)).sum := by
  intro L
  induction L with
  | nil => rfl
  | cons l ls ih =>
    rw [List.flatten_cons, List.filter_append, List.length_append, ih, List.map_cons,
      List.sum_cons]

/-- C9 (confirmed): the reader's merged table is the concatenation of the
per-file parsed record sets in input-list order — the timestamp sequence is
the concatenation of the per-file timestamp sequences (no global sort), and
every row with a given timestamp is kept with its multiplicity (no
deduplication): the number of merged rows carrying timestamp `τ` is the sum
over the files of their rows carrying `τ`. -/
theorem claim_C9_merge_concat (files : List (List (ℕ × List ℚ))) (τ : ℕ) :
    (mergeData files).map Row.ts = (files.map (fun fl => fl.map Prod.fst)).flatten ∧
      ((mergeData files).filter (fun r => decide (r.ts = τ))).length =
        (files.map (fun fl => (fl.filter (fun p => decide (p.1 = τ))).length)).sum := by
  constructor
  · unfold mergeData readDataFile
    rw [List.map_flatten, List.map_map]
    congr 1
    apply List.map_congr_left
    intro fl _
    simp only [Function.comp_apply]
    rw [List.map_map]
    apply List.map_congr_left
    intro p _
    rfl
  · unfold mergeData readDataFile
    rw [length_filter_flatten, List.map_map]
    congr 1
    apply List.map_congr_left
    intro fl _
    show ((fl.map (fun p => Row.mk p.1 p.2)).filter (fun r => decide (r.ts = τ))).length = _
    rw [List.filter_map, List.length_map]
    congr 1

/-- C8 (confirmed): the window loop of `_split_data_fraction` is lenient —
every window of the range fraction produces exactly one event, in order: a
file write when its try-block succeeds, and otherwise a log entry carrying
the error message together with the offending window's start timestamp; a
failing window never stops the loop, and the function returns the `True`
completion signal regardless of failures. -/
theorem claim_C8_lenient_split (step : ℕ → Except String Unit) (df : Table)
    (rf : List ℕ) (f : ℕ) :
    splitDataFraction step df rf f =
      (rf.map (fun s =>
        match step s with
        | Except.ok _ => SplitEvent.wrote (partName s ++ ".csv") (sliceClosed df s (s + f))
        | Except.error e => SplitEvent.failed e s), true) ∧
      (splitDataFraction step df rf f).1.length = rf.length := by
  have hloop : ∀ l : List ℕ, splitLoop step df f l =
      l.map (fun s =>
        match step s with
        | Except.ok _ => SplitEvent.wrote (partName s ++ ".csv") (sliceClosed df s (s + f))
        | Except.error e => SplitEvent.failed e s) := by
    intro l
    induction l with
    | nil => rfl
    | cons s rest ih => rw [splitLoop, List.map_cons, ih]
  constructor
  · unfold splitDataFraction
    rw [hloop]
  · unfold splitDataFraction
    rw [hloop, List.length_map]

/-- C10 (confirmed): the partitioner is total — for the empty time range the
computed fraction size is 0, the islice loop stops at once yielding no
fraction and no error, and in general the (finite) list of fractions never
has more elements than the time range has timestamps. -/
theorem claim_C10_partitioner_total (data : Table) (b f W : ℕ) (hW : 1 ≤ W) :
    fractionSize 0 W = 0 ∧
      makeDataFractions data (dateRangeLeft b b f) f W = [] ∧
      ∀ R : List ℕ, (makeDataFractions data R f W).length ≤ R.length := by
  refine ⟨?_, ?_, ?_⟩
  · unfold fractionSize
    simp
  · have hnil : dateRangeLeft b b f = [] := by
      unfold dateRangeLeft
      have h0 : (b - b + f - 1) / f = 0 := by
        rcases Nat.eq_zero_or_pos f with h | h
        · subst h
          rw [Nat.div_zero]
        · exact Nat.div_eq_of_lt (by omega)
      rw [h0]
      rfl
    rw [hnil]
    unfold makeDataFractions chunkList
    rw [chunkFuel_nil]
    rfl
  · intro R
    unfold makeDataFractions chunkList
    rw [List.length_map]
    exact chunkFuel_length_le _ _ R

lemma makeDataFractions_snd (data : Table) (b e f W : ℕ) (hf : 1 ≤ f) :
    (makeDataFractions data (dateRangeLeft b e f) f W).map Prod.snd =
      chunkList (fractionSize (dateRangeLeft b e f).length W) (dateRangeLeft b e f) := by
  rw [makeDataFractions_eq data b e f W hf, List.map_map]
  rw [show (Prod.snd ∘ fun c : List ℕ =>
    (sliceClosed data (firstTs c) (lastTs c + f), c)) = id from rfl, List.map_id]

/-- C2 (confirmed): for a non-empty time range and at least one worker, the
time sub-ranges of the fractions yielded by `_make_data_fractions`
concatenate back to exactly the original range (no timestamp missed), are
pairwise strictly ordered (ascending, non-overlapping, so no timestamp lies
in two fractions), and none of them is empty. -/
theorem claim_C2_partition_exact (data : Table) (b e f W : ℕ) (hf : 1 ≤ f) (hW : 1 ≤ W)
    (hne : dateRangeLeft b e f ≠ []) :
    ((makeDataFractions data (dateRangeLeft b e f) f W).map Prod.snd).flatten =
        dateRangeLeft b e f ∧
      ((makeDataFractions data (dateRangeLeft b e f) f W).map Prod.snd).Pairwise
        (fun c1 c2 => ∀ x ∈ c1, ∀ y ∈ c2, x < y) ∧
      ∀ c ∈ (makeDataFractions data (dateRangeLeft b e f) f W).map Prod.snd, c ≠ [] := by
  rw [makeDataFractions_snd data b e f W hf]
  refine ⟨chunkList_flatten _ _, ?_, ?_⟩
  · apply flatten_sorted_pairwise
    rw [chunkList_flatten]
    rw [dateRangeLeft_arith]
    exact arithSeq_sorted b _ f hf
  · intro c hc
    have hpos : 1 ≤ (dateRangeLeft b e f).length :=
      List.length_pos.mpr hne
    exact chunkFuel_ne_nil _ (fractionSize_pos hW hpos) _ _ c hc

/-- C2 witness: the scenario range of four half-hour timestamps with one
worker. -/
theorem claim_C2_partition_exact_witness :
    (1 ≤ 1800 ∧ 1 ≤ 1 ∧ dateRangeLeft 0 7200 1800 ≠ []) ∧
      (((makeDataFractions [] (dateRangeLeft 0 7200 1800) 1800 1).map Prod.snd).flatten =
          dateRangeLeft 0 7200 1800 ∧
        ((makeDataFractions [] (dateRangeLeft 0 7200 1800) 1800 1).map Prod.snd).Pairwise
          (fun c1 c2 => ∀ x ∈ c1, ∀ y ∈ c2, x < y) ∧
        ∀ c ∈ (makeDataFractions [] (dateRangeLeft 0 7200 1800) 1800 1).map Prod.snd,
          c ≠ []) :=
  ⟨⟨by decide, by decide, by decide⟩,
    claim_C2_partition_exact [] 0 7200 1800 1 (by decide) (by decide) (by decide)⟩

/-- C4 (confirmed): every fraction except possibly the last has exactly
`fractionSize` timestamps, the fraction lengths sum to the range's length
(so the last fraction holds exactly the remaining timestamps), and
`fractionSize` equals `ceil(len / (workers * 8))`. -/
theorem claim_C4_fraction_sizes (data : Table) (b e f W : ℕ) (hf : 1 ≤ f) (hW : 1 ≤ W) :
    (∀ c ∈ ((makeDataFractions data (dateRangeLeft b e f) f W).map Prod.snd).dropLast,
        c.length = fractionSize (dateRangeLeft b e f).length W) ∧
      ((((makeDataFractions data (dateRangeLeft b e f) f W).map Prod.snd).map
          List.length).sum = (dateRangeLeft b e f).length) ∧
      fractionSize (dateRangeLeft b e f).length W =
        ((dateRangeLeft b e f).length + W * 8 - 1) / (W * 8) := by
  rw [makeDataFractions_snd data b e f W hf]
  refine ⟨?_, ?_, fractionSize_eq_ceil _ W hW⟩
  · intro c hc
    by_cases hL : (dateRangeLeft b e f).length = 0
    · have hnil : dateRangeLeft b e f = [] := List.length_eq_zero.mp hL
      rw [hnil] at hc
      unfold chunkList at hc
      rw [chunkFuel_nil] at hc
      simp at hc
    · exact chunkFuel_dropLast_length _ (fractionSize_pos hW (by omega)) _ _
        (le_refl _) c hc
  · rw [← List.length_flatten, chunkList_flatten]

/-- C4 witness: nine timestamps across one worker give fraction size 2 and
fractions of sizes 2,2,2,2,1. -/
theorem claim_C4_fraction_sizes_witness :
    (1 ≤ 60 ∧ 1 ≤ 1) ∧
      ((∀ c ∈ ((makeDataFractions [] (dateRangeLeft 0 540 60) 60 1).map Prod.snd).dropLast,
          c.length = fractionSize (dateRangeLeft 0 540 60).length 1) ∧
        ((((makeDataFractions [] (dateRangeLeft 0 540 60) 60 1).map Prod.snd).map
            List.length).sum = (dateRangeLeft 0 540 60).length) ∧
        fractionSize (dateRangeLeft 0 540 60).length 1 =
          ((dateRangeLeft 0 540 60).length + 1 * 8 - 1) / (1 * 8)) :=
  ⟨⟨by decide, by decide⟩,
    claim_C4_fraction_sizes [] 0 540 60 1 (by decide) (by decide)⟩

/-- C1 counterexample: a merged table with a single row timestamped exactly
on the window boundary 1800 s, split over the range
[1970-01-01T00:00, 1970-01-01T01:00) at 30-minute frequency with one
worker.  The half-open reading demands that the window starting at 0
contain no row (its half-open interval [0, 1800) misses the row), yet both
the window starting at 0 and the window starting at 1800 write the row:
pandas label slicing is closed on both endpoints, so a boundary row lands
in the preceding window as well. -/
theorem claim_C1_counterexample :
    (prepareOutputs [⟨1800, [1]⟩] (dateRangeLeft 0 3600 1800) 1800 1).map
        (fun p => (p.1, p.2.map Row.ts)) =
      [("1970-01-01_00-00.csv", [1800]), ("1970-01-01_00-30.csv", [1800])] ∧
      List.filter (fun r => decide (0 ≤ r.ts) && decide (r.ts < 0 + 1800))
        [(⟨1800, [1]⟩ : Row)] = [] := by
  constructor
  · decide
  · decide

/-- C1 (corrected): every emitted window file holds exactly the rows of the
merged table whose timestamp lies in the CLOSED interval
[window_start, window_start + freq] — pandas label slices include both
endpoints, so a row exactly on a boundary belongs to the window starting at
it AND to the preceding window; one file is emitted per range timestamp, in
range order, named from the window start; and a row of the table appears in
some window file exactly when some window start s of the range satisfies
s ≤ ts ≤ s + freq. -/
theorem claim_C1_window_contents (data : Table) (b e f W : ℕ) (hf : 1 ≤ f) :
    prepareOutputs data (dateRangeLeft b e f) f W =
      (dateRangeLeft b e f).map
        (fun s => (partName s ++ ".csv",
          data.filter (fun r => decide (s ≤ r.ts) && decide (r.ts ≤ s + f)))) ∧
      ∀ r ∈ data,
        ((∃ p ∈ prepareOutputs data (dateRangeLeft b e f) f W, r ∈ p.2) ↔
          ∃ s ∈ dateRangeLeft b e f, s ≤ r.ts ∧ r.ts ≤ s + f) := by
  refine ⟨prepareOutputs_eq data b e f W hf, ?_⟩
  intro r hr
  rw [prepareOutputs_eq data b e f W hf]
  constructor
  · rintro ⟨p, hp, hrp⟩
    rw [List.mem_map] at hp
    obtain ⟨s, hs, rfl⟩ := hp
    rw [List.mem_filter] at hrp
    simp only [Bool.and_eq_true, decide_eq_true_eq] at hrp
    exact ⟨s, hs, hrp.2⟩
  · rintro ⟨s, hs, h1, h2⟩
    refine ⟨(partName s ++ ".csv",
      data.filter (fun r => decide (s ≤ r.ts) && decide (r.ts ≤ s + f))),
      List.mem_map.mpr ⟨s, hs, rfl⟩, ?_⟩
    rw [List.mem_filter]
    simp only [Bool.and_eq_true, decide_eq_true_eq]
    exact ⟨hr, h1, h2⟩

/-- C1 witness: the corrected statement evaluated on the boundary-row
table. -/
theorem claim_C1_window_contents_witness :
    1 ≤ 1800 ∧
      (prepareOutputs [⟨1800, [1]⟩] (dateRangeLeft 0 3600 1800) 1800 1 =
        (dateRangeLeft 0 3600 1800).map
          (fun s => (partName s ++ ".csv",
            List.filter (fun r => decide (s ≤ r.ts) && decide (r.ts ≤ s + 1800))
              [(⟨1800, [1]⟩ : Row)])) ∧
        ∀ r ∈ [(⟨1800, [1]⟩ : Row)],
          ((∃ p ∈ prepareOutputs [⟨1800, [1]⟩] (dateRangeLeft 0 3600 1800) 1800 1,
              r ∈ p.2) ↔
            ∃ s ∈ dateRangeLeft 0 3600 1800, s ≤ r.ts ∧ r.ts ≤ s + 1800)) :=
  ⟨by decide, claim_C1_window_contents [⟨1800, [1]⟩] 0 3600 1800 1 (by decide)⟩

/-- C3 counterexample: in the spec's scenario (four timestamps, one
worker), `ceil(4/8) = 1` is the fraction SIZE, so `_make_data_fractions`
yields four one-timestamp fractions — not one fraction spanning the whole
range. -/
theorem claim_C3_counterexample :
    (makeDataFractions [⟨1577836800, [1]⟩]
        (dateRangeLeft 1577836800 1577844000 1800) 1800 1).length = 4 ∧
      ¬ (makeDataFractions [⟨1577836800, [1]⟩]
          (dateRangeLeft 1577836800 1577844000 1800) 1800 1).length = 1 := by
  constructor
  · decide
  · decide

/-- C3 (corrected): for the range [2020-01-01T00:00, 2020-01-01T02:00) at
30-minute frequency and one worker, the fraction size is ceil(4/8) = 1, the
partitioner yields four single-timestamp fractions, and the splitter emits
exactly the four files 2020-01-01_00-00.csv ... 2020-01-01_01-30.csv. -/
theorem claim_C3_scenario :
    fractionSize (dateRangeLeft 1577836800 1577844000 1800).length 1 = 1 ∧
      (makeDataFractions [⟨1577836800, [1]⟩]
          (dateRangeLeft 1577836800 1577844000 1800) 1800 1).map Prod.snd =
        [[1577836800], [1577838600], [1577840400], [1577842200]] ∧
      (prepareOutputs [⟨1577836800, [1]⟩]
          (dateRangeLeft 1577836800 1577844000 1800) 1800 1).map Prod.fst =
        ["2020-01-01_00-00.csv", "2020-01-01_00-30.csv",
         "2020-01-01_01-00.csv", "2020-01-01_01-30.csv"] := by
  refine ⟨by decide, by decide, by decide⟩

/-- C5 counterexample: with a 30-SECOND frequency over
[1970-01-01T00:00:00, 1970-01-01T00:01:00) and one worker, the two distinct
windows starting at 0 s and 30 s both render to the same file name — the
`[:-3]` truncation keeps only minute precision, so sub-minute window starts
collide and the later window overwrites the earlier file. -/
theorem claim_C5_counterexample :
    (prepareOutputs [] (dateRangeLeft 0 60 30) 30 1).map Prod.fst =
        ["1970-01-01_00-00.csv", "1970-01-01_00-00.csv"] ∧
      (0 : ℕ) ≠ 30 ∧ partName 0 ++ ".csv" = partName 30 ++ ".csv" := by
  refine ⟨by decide, by decide, by decide⟩

/-- C5 (corrected): the emitted name is `YYYY-MM-DD_HH-MM` rendered from
the window start (date, then the colon-to-hyphen time truncated to minute
precision), and names of distinct windows are distinct PROVIDED the window
starts are whole minutes (frequency a multiple of one minute) and lie in
the pandas-representable timestamp range (before 2262-04-11); for
sub-minute frequencies distinct windows can share a name. -/
theorem claim_C5_names (ts1 ts2 : ℕ) (hb1 : ts1 ≤ 9223372036) (hb2 : ts2 ≤ 9223372036)
    (hm1 : 60 ∣ ts1) (hm2 : 60 ∣ ts2) (hne : ts1 ≠ ts2) :
    partName ts1 = String.mk
        (pad4c (yearOf (ts1 / 86400)) ++ '-' :: pad2c (monthOf (ts1 / 86400)) ++
          '-' :: pad2c (dayOf (ts1 / 86400)) ++ '_' :: pad2c (ts1 % 86400 / 3600) ++
          '-' :: pad2c (ts1 % 3600 / 60)) ∧
      partName ts1 ≠ partName ts2 := by
  constructor
  · rw [partName_chars]
    rfl
  · intro h
    exact hne (partName_inj hb1 hb2 (by omega) (by omega) h)

/-- C5 witness: midnight and one minute past midnight render to distinct
names. -/
theorem claim_C5_names_witness :
    ((0 : ℕ) ≤ 9223372036 ∧ (60 : ℕ) ≤ 9223372036 ∧ (60 : ℕ) ∣ 0 ∧ (60 : ℕ) ∣ 60 ∧
        (0 : ℕ) ≠ 60) ∧
      (partName 0 = String.mk
          (pad4c (yearOf (0 / 86400)) ++ '-' :: pad2c (monthOf (0 / 86400)) ++
            '-' :: pad2c (dayOf (0 / 86400)) ++ '_' :: pad2c (0 % 86400 / 3600) ++
            '-' :: pad2c (0 % 3600 / 60)) ∧
        partName 0 ≠ partName 60) :=
  ⟨⟨by decide, by decide, by decide, by decide, by decide⟩,
    claim_C5_names 0 60 (by decide) (by decide) (by decide) (by decide) (by decide)⟩

lemma foldl_min_add (s : ℕ) :
    ∀ (l : List ℕ) (b : ℕ), List.foldl min (b + s) (l.map (· + s)) =
      List.foldl min b l + s := by
  intro l
  induction l with
  | nil => intro b; rfl
  | cons x xs ih =>
    intro b
    rw [List.map_cons, List.foldl_cons, List.foldl_cons, min_add_add_right, ih]

lemma minTs_tshift {t : Table} (ht : t ≠ []) (s : ℕ) :
    minTs (tshiftTable t s) = minTs t + s := by
  cases t with
  | nil => exact absurd rfl ht
  | cons r rs =>
    show List.foldl min (r.ts + s) ((rs.map fun r => Row.mk (r.ts + s) r.vals).map Row.ts) =
      List.foldl min r.ts (rs.map Row.ts) + s
    rw [List.map_map]
    rw [show ((Row.ts ∘ fun r => Row.mk (r.ts + s) r.vals) : Row → ℕ) =
      ((· + s) ∘ Row.ts) from rfl]
    rw [← List.map_map]
    exact foldl_min_add s (rs.map Row.ts) r.ts

lemma bucketRows_tshift {t : Table} (ht : t ≠ []) (f k : ℕ) :
    bucketRows (tshiftTable t 28800) f k =
      tshiftTable (t.filter (fun r =>
        decide (dayFloor (minTs t + 28800) + k * f ≤ r.ts + 28800) &&
          decide (r.ts + 28800 < dayFloor (minTs t + 28800) + (k + 1) * f))) 28800 := by
  unfold bucketRows resampleOrigin
  rw [minTs_tshift ht]
  unfold tshiftTable
  rw [List.filter_map]
  rfl

/-- C6 (confirmed): the ammonia preparation first shifts every timestamp
forward by exactly 8 hours (28800 s), then groups rows into bins of the
range's frequency and emits the per-channel arithmetic mean of each bin;
a bin with no source rows yields nothing (pandas NaN), never an imputed
value.  Stated as a refinement: the pipeline equals the spec-side
description `specAmmoniaMean` phrased over the original timestamps. -/
theorem claim_C6_resampler (t : Table) (f k c : ℕ) (ht : t ≠ []) :
    ammoniaPrepareChannel t f k c = specAmmoniaMean t f k c := by
  unfold ammoniaPrepareChannel resampleMeanChannel specAmmoniaMean
  rw [bucketRows_tshift ht f k]
  have hempty : ∀ l : Table, (tshiftTable l 28800).isEmpty = l.isEmpty := by
    intro l
    cases l <;> rfl
  have hlen : ∀ l : Table, (tshiftTable l 28800).length = l.length := by
    intro l
    unfold tshiftTable
    rw [List.length_map]
  have hvals : ∀ l : Table, (tshiftTable l 28800).map (channelVal c) =
      l.map (channelVal c) := by
    intro l
    unfold tshiftTable
    rw [List.map_map]
    rfl
  rw [hempty, hlen, hvals]

/-- C6 witness: one row at midnight, hourly bins; the row lands in bin 8
(08:00 after the shift). -/
theorem claim_C6_resampler_witness :
    ([(⟨0, [2]⟩ : Row)] ≠ []) ∧
      ammoniaPrepareChannel [⟨0, [2]⟩] 3600 8 0 = specAmmoniaMean [⟨0, [2]⟩] 3600 8 0 :=
  ⟨by decide, claim_C6_resampler [⟨0, [2]⟩] 3600 8 0 (by decide)⟩

/-- C7 (confirmed): when exactly one (shifted) source row lands in a bin,
the resampled value of every channel at that bin is that row's value
unchanged — the mean of a single element is the element. -/
theorem claim_C7_single_row (t : Table) (f k c : ℕ) (r : Row)
    (h : bucketRows (tshiftTable t 28800) f k = [r]) :
    ammoniaPrepareChannel t f k c = some (channelVal c r) := by
  unfold ammoniaPrepareChannel resampleMeanChannel
  rw [h]
  simp

/-- C7 witness: the single row with value 5 at midnight is returned
unchanged in bin 8 of the hourly resample. -/
theorem claim_C7_single_row_witness :
    bucketRows (tshiftTable [⟨0, [5]⟩] 28800) 3600 8 = [(⟨28800, [5]⟩ : Row)] ∧
      ammoniaPrepareChannel [⟨0, [5]⟩] 3600 8 0 = some (channelVal 0 ⟨28800, [5]⟩) :=
  ⟨by decide, claim_C7_single_row [⟨0, [5]⟩] 3600 8 0 ⟨28800, [5]⟩ (by decide)⟩

/-- C10 witness: one worker, empty range at 30-second frequency. -/
theorem claim_C10_partitioner_total_witness :
    1 ≤ 1 ∧
      (fractionSize 0 1 = 0 ∧
        makeDataFractions [] (dateRangeLeft 100 100 30) 30 1 = [] ∧
        ∀ R : List ℕ, (makeDataFractions [] R 30 1).length ≤ R.length) :=
  ⟨by decide, claim_C10_partitioner_total [] 100 30 1 (by decide)⟩
